import Mathlib

/-!
# Verification of the GenEQ risk-computation core

Shallow embedding of the risk pipeline of `backend/compute.py` (key
normalizer, PCS category classifier, dimension normalizer, job-risk
engine) and of `tapered_weights` from `backend/main_backup.py` /
`frontend/app.py`.  Python floats are modelled by exact rationals `ℚ`;
strings by Lean `String`; SQL tables by lists of rows in read order;
the `DELETE FROM`-then-insert writes by update functions that take the
prior table contents and return the replacement.
-/

namespace GenEQ

/-- A character of the regex class `\w` (ASCII view): alphanumeric or underscore. -/
def isWordChar (c : Char) : Bool := c.isAlphanum || c == '_'

/-- Maximal runs of non-space characters of `cs` (the accumulator holds the
current run reversed), mirroring Python `str.split()` after punctuation and
whitespace have been mapped to `' '`. -/
def splitTokens : List Char → List Char → List (List Char)
  | [], acc => if acc.isEmpty then [] else [acc.reverse]
  | c :: rest, acc =>
    if c == ' ' then
      if acc.isEmpty then splitTokens rest [] else acc.reverse :: splitTokens rest []
    else splitTokens rest (c :: acc)

/-- `norm_key` from `compute.py`: lowercase, strip, replace each
non-word/non-space character by a space (`_PUNCT_RE.sub`), then collapse all
whitespace runs to single spaces (`" ".join(s.split())`). -/
def norm_key (s : String) : String :=
  let cs := s.data.map (fun c => let c := c.toLower; if isWordChar c then c else ' ')
  String.intercalate " " ((splitTokens cs []).map fun t => String.mk t)

/-- The five PCS categories returned by `category_for`. -/
inductive Category where
  | ROUTINE
  | PHYSICAL
  | CREATIVE
  | SOCIAL
  | OTHER
deriving DecidableEq

/-- Wordness of the character at index `i` of `s` (`false` beyond the ends). -/
def isWordAt (s : List Char) (i : Nat) : Bool := isWordChar (s.getD i ' ')

/-- The regex word boundary `\b` at position `i` of `s` (positions run
`0 .. s.length`): wordness changes between the character before `i` and the
character at `i`, with virtual non-word characters beyond both ends. -/
def wordBoundary (s : List Char) (i : Nat) : Bool :=
  (decide (i ≠ 0) && isWordAt s (i - 1)) != isWordAt s i

/-- `p` occurs as a literal substring of `s` starting at index `i`. -/
def matchesAt (s p : List Char) (i : Nat) : Bool :=
  ((s.drop i).take p.length) == p

/-- `re.search` of `\b(p)\b` in `s`: some occurrence of `p` flanked by word
boundaries.  Caller passes both sides already lowercased (`re.I`). -/
def phraseFound (p s : List Char) : Bool :=
  (List.range (s.length + 1)).any fun i =>
    wordBoundary s i && matchesAt s p i && wordBoundary s (i + p.length)

/-- Lowercased character view of a string (the `re.I` flag). -/
def lowerChars (s : String) : List Char := s.data.map Char.toLower

/-- One compiled alternation `\b(p1|p2|...)\b` matches somewhere in `s`. -/
def patternMatches (phrases : List String) (s : String) : Bool :=
  phrases.any fun p => phraseFound (lowerChars p) (lowerChars s)

/-- Alternatives of the ROUTINE pattern of `CATEGORY_MAP`. -/
def routinePhrases : List String :=
  ["Operation Monitoring of Machinery and Equipment", "Quality Control Testing",
   "Monitoring", "Categorization Flexibility", "Numeracy", "Information Ordering",
   "Pattern Identification", "Pattern Organization Speed"]

/-- Alternatives of the PHYSICAL pattern of `CATEGORY_MAP`. -/
def physicalPhrases : List String :=
  ["Repairing", "Setting up", "Memorizing", "Multitasking", "Perceptual Speed",
   "Selective Attention", "Spatial Orientation", "Spatial Visualization",
   "Verbal Ability", "Body Flexibility", "Dynamic Strength", "Explosive Strength",
   "Gross Body Coordination", "Gross Body Equilibrium", "Multi-Limb Coordination",
   "Stamina", "Static Strength", "Trunk Strength", "Arm-Hand Steadiness",
   "Control of Settings", "Finger Dexterity", "Manual Dexterity",
   "Multi-Signal Response", "Rate Control", "Reaction Time",
   "Speed of Limb Movement", "Finger-Hand-Wrist Motion", "Auditory Attention",
   "Depth Perception", "Far Vision", "Glare Tolerance", "Hearing Sensitivity",
   "Near Vision", "Night Vision", "Peripheral Vision", "Speech Clarity",
   "Speech Recognition", "Sound Localization", "Colour Perception"]

/-- Alternatives of the CREATIVE pattern of `CATEGORY_MAP`. -/
def creativePhrases : List String := ["Fluency of Ideas", "Product Design"]

/-- Alternatives of the SOCIAL pattern of `CATEGORY_MAP`. -/
def socialPhrases : List String :=
  ["Oral Communication: Active Listening", "Oral Communication: Oral Comprehension",
   "Oral Communication: Oral Expression", "Coordinating", "Instructing",
   "Negotiating", "Persuading", "Social Perceptiveness"]

/-- The ordered rule table `CATEGORY_MAP` of `compute.py`. -/
def CATEGORY_MAP : List (List String × Category) :=
  [(routinePhrases, Category.ROUTINE), (physicalPhrases, Category.PHYSICAL),
   (creativePhrases, Category.CREATIVE), (socialPhrases, Category.SOCIAL)]

/-- `category_for` from `compute.py`: first matching rule of `CATEGORY_MAP`
wins, default `OTHER`. -/
def category_for (feature_name : String) : Category :=
  match CATEGORY_MAP.find? (fun rc => patternMatches rc.1 feature_name) with
  | some rc => rc.2
  | none => Category.OTHER

/-- Membership in `PCS_SET = {"PHYSICAL", "CREATIVE", "SOCIAL"}`. -/
def inPcsSet : Category → Bool
  | Category.PHYSICAL => true
  | Category.CREATIVE => true
  | Category.SOCIAL => true
  | _ => false

/-- The clamp `max(0.0, min(1.0, x))` used throughout `compute.py`. -/
def clamp01 (x : ℚ) : ℚ := max 0 (min 1 x)

/-- `normalize_dimension` from `compute.py` as a pure function from the raw
table's rows (read order preserved, as `pd.read_sql_query` does) to the rows
written to the output table.  Empty input yields an empty table; a degenerate
value column yields risk `0.5` everywhere; otherwise a min–max rescale. -/
def normalize_dimension : List (String × ℚ) → List (String × ℚ)
  | [] => []
  | r :: rs =>
    let vs := (r :: rs).map Prod.snd
    let vmin := vs.foldl min r.2
    let vmax := vs.foldl max r.2
    if vmax = vmin then (r :: rs).map (fun p => (p.1, (1 : ℚ) / 2))
    else (r :: rs).map fun p => (p.1, (p.2 - vmin) / (vmax - vmin))

/-- The table write of `normalize_dimension`: `DELETE FROM table_out` followed
by an insert of the computed rows, so the prior contents never survive. -/
def normalize_dimension_update (prior : List (String × ℚ))
    (raw : List (String × ℚ)) : List (String × ℚ) :=
  normalize_dimension raw

/-- One row of `job_features_raw`.  `payload` models the result of
`json.loads(features_json)`: `none` when the JSON text is empty or unparsable
(the `except` branch sets `feats = {}`), `some kvs` for a parsed object with
its key/value pairs in iteration order.  Each value is the result of
`float(raw_val)`: `none` when coercion raises (that feature is skipped). -/
structure JobRow where
  job_id : String
  payload : Option (List (String × Option ℚ))
deriving DecidableEq

/-- One row of `ability_skill_rubric_raw`; `none` in an index column models a
SQL NULL / NaN (`pd.notna` false ⇒ treated as `0.0`). -/
structure RubricRow where
  name : String
  substitution_index : Option ℚ
  complementarity_index : Option ℚ
deriving DecidableEq

/-- The rubric dict of `compute_job_risk`: keyed by `norm_key(name)`, built
row by row so a later row overwrites an earlier one with the same key, each
index scaled by `max(0.0, min(1.0, idx / 5.0))`. -/
def rubricMap (rb : List RubricRow) (k : String) : Option (ℚ × ℚ) :=
  (rb.reverse.find? fun row => norm_key row.name == k).map fun row =>
    (clamp01 (row.substitution_index.getD 0 / 5),
     clamp01 (row.complementarity_index.getD 0 / 5))

/-- The per-job accumulators of the feature loop of `compute_job_risk`. -/
structure FeatAcc where
  sub_raw : ℚ
  cmp_raw : ℚ
  pcs_mass : ℚ
  pcs_den : ℚ
deriving DecidableEq

/-- One iteration of `for hdr, raw_val in feats.items()`: skip non-coercible
values, clamp the level to `[0,5]` and scale to `[0,1]`, look the normalized
name up in the rubric (absent ⇒ indices `(0,0)`), accumulate substitution and
complementarity mass, and accumulate PCS mass/denominator by category. -/
def featStep (rubric : String → Option (ℚ × ℚ)) (acc : FeatAcc)
    (f : String × Option ℚ) : FeatAcc :=
  match f.2 with
  | none => acc
  | some v =>
    let val := max 0 (min 5 v)
    let val_scaled := val / 5
    let idx := (rubric (norm_key f.1)).getD (0, 0)
    let cat := category_for f.1
    { sub_raw := acc.sub_raw + val_scaled * idx.1
      cmp_raw := acc.cmp_raw + val_scaled * idx.2
      pcs_mass := if inPcsSet cat then acc.pcs_mass + val_scaled else acc.pcs_mass
      pcs_den := if inPcsSet cat || cat == Category.ROUTINE
                 then acc.pcs_den + val_scaled else acc.pcs_den }

/-- The epsilon `1e-9` guarding the base-risk division. -/
def eps : ℚ := 1 / 1000000000

/-- The per-job record appended to `rows` by `compute_job_risk`. -/
structure JobScore where
  job_id : String
  base : ℚ
  pcs_share : ℚ
  job_risk : ℚ
deriving DecidableEq

/-- The raw (pre-normalization) job risk of `compute_job_risk`:
`base * (1 - pcs_share)` clamped to `[0,1]`. -/
def job_risk_raw (base pcs_share : ℚ) : ℚ := clamp01 (base * (1 - pcs_share))

/-- Score one job of `job_features_raw`: fold the feature loop over the
parsed payload (empty or unparsable ⇒ empty feature set), then
`base = sub_raw / (sub_raw + cmp_raw + 1e-9)`,
`pcs_share = clamp01(pcs_mass / pcs_den)` (or `0` when `pcs_den ≤ 0`), and
the clamped penalized risk. -/
def scoreJob (rubric : String → Option (ℚ × ℚ)) (r : JobRow) : JobScore :=
  let acc := (r.payload.getD []).foldl (featStep rubric) ⟨0, 0, 0, 0⟩
  let base := acc.sub_raw / (acc.sub_raw + acc.cmp_raw + eps)
  let pcs_share := clamp01 (if acc.pcs_den > 0 then acc.pcs_mass / acc.pcs_den else 0)
  ⟨r.job_id, base, pcs_share, job_risk_raw base pcs_share⟩

/-- The global min–max pass over the batch's raw risks (`lo`, `hi`, and
`risk_norm`), identical in shape to `normalize_dimension`. -/
def globalNorm (lo hi x : ℚ) : ℚ := if hi = lo then (1 : ℚ) / 2 else (x - lo) / (hi - lo)

/-- `compute_job_risk` from `compute.py` as a pure function from the rows of
`job_features_raw` and `ability_skill_rubric_raw` to the pair of tables
written: `(job_profile rows, job_risk rows)`.  An empty feature source or an
empty rubric source yields `([], [])` (both tables cleared). -/
def compute_job_risk (jf : List JobRow) (rb : List RubricRow) :
    List (String × ℚ) × List (String × ℚ) :=
  match jf, rb with
  | [], _ => ([], [])
  | _ :: _, [] => ([], [])
  | j :: js, b :: bs =>
    let rubric := rubricMap (b :: bs)
    let scores := (j :: js).map (scoreJob rubric)
    let risks := scores.map JobScore.job_risk
    let lo := risks.foldl min (scoreJob rubric j).job_risk
    let hi := risks.foldl max (scoreJob rubric j).job_risk
    (scores.map (fun s => (s.job_id, s.pcs_share)),
     scores.map fun s => (s.job_id, globalNorm lo hi s.job_risk))

/-- The derived tables owned by `compute_job_risk`. -/
structure JobTables where
  job_profile : List (String × ℚ)
  job_risk : List (String × ℚ)
deriving DecidableEq

/-- The table write of `compute_job_risk`: `DELETE FROM job_profile`,
`DELETE FROM job_risk`, then insert the computed rows — the prior contents
never survive. -/
def compute_job_risk_update (prior : JobTables) (jf : List JobRow)
    (rb : List RubricRow) : JobTables :=
  let out := compute_job_risk jf rb
  ⟨out.1, out.2⟩

/-- `tapered_weights` from `main_backup.py` / `app.py`, parameterized by the
base province/ethnicity weights (`BASE_W_PROVINCE`/`BASE_W_ETHNICITY`, resp.
`W_PROVINCE`/`W_ETHNICITY`).  Returns `(province, ethnicity, job)`. -/
def tapered_weights (wProv wEth : ℚ) (pcs_share : ℚ) : ℚ × ℚ × ℚ :=
  let pcs := max 0 (min 1 pcs_share)
  let w_p := wProv * (1 - pcs)
  let w_e := wEth * (1 - pcs)
  let w_j := 1 - (w_p + w_e)
  let s := w_p + w_e + w_j
  if s = 0 then (0, 0, 1) else (w_p / s, w_e / s, w_j / s)

/-- `BASE_W_PROVINCE = W_PROVINCE = 0.10`. -/
def BASE_W_PROVINCE : ℚ := 1 / 10

/-- `BASE_W_ETHNICITY = W_ETHNICITY = 0.15`. -/
def BASE_W_ETHNICITY : ℚ := 3 / 20

/-- The full raw-table snapshot read by the recompute pipeline. -/
structure RawTables where
  province_risk_raw : List (String × ℚ)
  ethnicity_risk_raw : List (String × ℚ)
  job_features_raw : List JobRow
  ability_skill_rubric_raw : List RubricRow

/-- The full derived-table state written by the recompute pipeline. -/
structure DerivedTables where
  province_risk : List (String × ℚ)
  ethnicity_risk : List (String × ℚ)
  jobs : JobTables
deriving DecidableEq

/-- The recompute pipeline run by both `on_startup` and `admin_recompute` in
`main_backup.py`: normalize the province dimension, normalize the ethnicity
dimension, then compute job risk — each step fully replacing its derived
table(s). -/
def recompute (prior : DerivedTables) (raw : RawTables) : DerivedTables :=
  { province_risk := normalize_dimension_update prior.province_risk raw.province_risk_raw
    ethnicity_risk := normalize_dimension_update prior.ethnicity_risk raw.ethnicity_risk_raw
    jobs := compute_job_risk_update prior.jobs raw.job_features_raw raw.ability_skill_rubric_raw }

/-! ## Helper lemmas about `List.foldl min` / `List.foldl max`
(pandas' `.min()` / `.max()` over a column). -/

theorem foldl_min_le_init {α : Type} [LinearOrder α] (l : List α) (a : α) :
    l.foldl min a ≤ a := by
  induction l generalizing a with
  | nil => exact le_refl a
  | cons b t ih => exact le_trans (ih (min a b)) (min_le_left a b)

theorem le_foldl_max_init {α : Type} [LinearOrder α] (l : List α) (a : α) :
    a ≤ l.foldl max a := by
  induction l generalizing a with
  | nil => exact le_refl a
  | cons b t ih => exact le_trans (le_max_left a b) (ih (max a b))

theorem foldl_min_le_mem {α : Type} [LinearOrder α] {l : List α} {x : α}
    (hx : x ∈ l) (a : α) : l.foldl min a ≤ x := by
  induction l generalizing a with
  | nil => cases hx
  | cons b t ih =>
    rcases List.mem_cons.mp hx with h | h
    · subst h
      exact le_trans (foldl_min_le_init t (min a x)) (min_le_right a x)
    · exact ih h (min a b)

theorem mem_le_foldl_max {α : Type} [LinearOrder α] {l : List α} {x : α}
    (hx : x ∈ l) (a : α) : x ≤ l.foldl max a := by
  induction l generalizing a with
  | nil => cases hx
  | cons b t ih =>
    rcases List.mem_cons.mp hx with h | h
    · subst h
      exact le_trans (le_max_right a x) (le_foldl_max_init t (max a x))
    · exact ih h (max a b)

theorem foldl_min_eq_or_mem {α : Type} [LinearOrder α] (l : List α) (a : α) :
    l.foldl min a = a ∨ l.foldl min a ∈ l := by
  induction l generalizing a with
  | nil => exact Or.inl rfl
  | cons b t ih =>
    rcases ih (min a b) with h | h
    · rcases min_choice a b with h' | h'
      · exact Or.inl (h.trans h')
      · exact Or.inr (List.mem_cons.mpr (Or.inl (h.trans h')))
    · exact Or.inr (List.mem_cons_of_mem b h)

theorem foldl_max_eq_or_mem {α : Type} [LinearOrder α] (l : List α) (a : α) :
    l.foldl max a = a ∨ l.foldl max a ∈ l := by
  induction l generalizing a with
  | nil => exact Or.inl rfl
  | cons b t ih =>
    rcases ih (max a b) with h | h
    · rcases max_choice a b with h' | h'
      · exact Or.inl (h.trans h')
      · exact Or.inr (List.mem_cons.mpr (Or.inl (h.trans h')))
    · exact Or.inr (List.mem_cons_of_mem b h)

theorem foldl_min_mem_of_mem {α : Type} [LinearOrder α] {l : List α} {a : α}
    (ha : a ∈ l) : l.foldl min a ∈ l := by
  rcases foldl_min_eq_or_mem l a with h | h
  · rw [h]; exact ha
  · exact h

theorem foldl_max_mem_of_mem {α : Type} [LinearOrder α] {l : List α} {a : α}
    (ha : a ∈ l) : l.foldl max a ∈ l := by
  rcases foldl_max_eq_or_mem l a with h | h
  · rw [h]; exact ha
  · exact h

theorem normalize_dimension_cons (r : String × ℚ) (rs : List (String × ℚ)) :
    normalize_dimension (r :: rs) =
      if ((r :: rs).map Prod.snd).foldl max r.2 = ((r :: rs).map Prod.snd).foldl min r.2
      then (r :: rs).map (fun p => (p.1, (1 : ℚ) / 2))
      else (r :: rs).map fun p =>
        (p.1, (p.2 - ((r :: rs).map Prod.snd).foldl min r.2) /
          (((r :: rs).map Prod.snd).foldl max r.2 - ((r :: rs).map Prod.snd).foldl min r.2)) :=
  rfl

theorem vrange_eq_iff (r : String × ℚ) (rs : List (String × ℚ)) :
    ((r :: rs).map Prod.snd).foldl max r.2 = ((r :: rs).map Prod.snd).foldl min r.2 ↔
      ∀ p ∈ r :: rs, p.2 = r.2 := by
  constructor
  · intro h p hp
    have hmem : p.2 ∈ (r :: rs).map Prod.snd := List.mem_map_of_mem _ hp
    have hrmem : r.2 ∈ (r :: rs).map Prod.snd :=
      List.mem_map_of_mem _ (List.mem_cons_self r rs)
    have h1 := foldl_min_le_mem hmem r.2
    have h2 := mem_le_foldl_max hmem r.2
    have h3 := foldl_min_le_mem hrmem r.2
    have h4 := mem_le_foldl_max hrmem r.2
    linarith
  · intro h
    have hmin : ((r :: rs).map Prod.snd).foldl min r.2 = r.2 := by
      rcases foldl_min_eq_or_mem ((r :: rs).map Prod.snd) r.2 with h' | h'
      · exact h'
      · obtain ⟨p, hp, hpe⟩ := List.mem_map.mp h'
        rw [← hpe]; exact h p hp
    have hmax : ((r :: rs).map Prod.snd).foldl max r.2 = r.2 := by
      rcases foldl_max_eq_or_mem ((r :: rs).map Prod.snd) r.2 with h' | h'
      · exact h'
      · obtain ⟨p, hp, hpe⟩ := List.mem_map.mp h'
        rw [← hpe]; exact h p hp
    rw [hmin, hmax]

/-- C2: for every non-empty raw exposure table, every normalized risk lies in
`[0,1]`; if all exposure values are equal every output risk is exactly `1/2`;
otherwise the output is the strict linear min–max rescale, records achieving
the minimum map to `0` and records achieving the maximum map to `1`; and the
concrete table `{ON: 10, QC: 20, AB: 30}` yields `{ON: 0, QC: 1/2, AB: 1}`. -/
theorem C2_normalize_dimension_minmax (r : String × ℚ) (rs : List (String × ℚ)) :
    (∀ q ∈ normalize_dimension (r :: rs), 0 ≤ q.2 ∧ q.2 ≤ 1) ∧
    ((∀ p ∈ r :: rs, p.2 = r.2) → ∀ q ∈ normalize_dimension (r :: rs), q.2 = 1 / 2) ∧
    (¬ (∀ p ∈ r :: rs, p.2 = r.2) →
      normalize_dimension (r :: rs) = (r :: rs).map (fun p =>
        (p.1, (p.2 - ((r :: rs).map Prod.snd).foldl min r.2) /
          (((r :: rs).map Prod.snd).foldl max r.2 - ((r :: rs).map Prod.snd).foldl min r.2))) ∧
      (∀ p ∈ r :: rs, p.2 = ((r :: rs).map Prod.snd).foldl min r.2 →
        (p.1, (0 : ℚ)) ∈ normalize_dimension (r :: rs)) ∧
      (∀ p ∈ r :: rs, p.2 = ((r :: rs).map Prod.snd).foldl max r.2 →
        (p.1, (1 : ℚ)) ∈ normalize_dimension (r :: rs))) ∧
    normalize_dimension [("ON", 10), ("QC", 20), ("AB", 30)] =
      [("ON", 0), ("QC", 1 / 2), ("AB", 1)] := by
  have hrmem : r.2 ∈ (r :: rs).map Prod.snd :=
    List.mem_map_of_mem _ (List.mem_cons_self r rs)
  have hminmax : ((r :: rs).map Prod.snd).foldl min r.2 ≤
      ((r :: rs).map Prod.snd).foldl max r.2 :=
    le_trans (foldl_min_le_init _ r.2) (le_foldl_max_init _ r.2)
  refine ⟨?_, ?_, ?_, ?_⟩
  · intro q hq
    rw [normalize_dimension_cons] at hq
    by_cases hdeg : ((r :: rs).map Prod.snd).foldl max r.2 =
        ((r :: rs).map Prod.snd).foldl min r.2
    · rw [if_pos hdeg] at hq
      obtain ⟨p, hp, rfl⟩ := List.mem_map.mp hq
      norm_num
    · rw [if_neg hdeg] at hq
      obtain ⟨p, hp, rfl⟩ := List.mem_map.mp hq
      have hlt : ((r :: rs).map Prod.snd).foldl min r.2 <
          ((r :: rs).map Prod.snd).foldl max r.2 :=
        lt_of_le_of_ne hminmax (fun h => hdeg h.symm)
      have hpmem : p.2 ∈ (r :: rs).map Prod.snd := List.mem_map_of_mem _ hp
      constructor
      · exact div_nonneg (sub_nonneg.mpr (foldl_min_le_mem hpmem r.2))
          (sub_nonneg.mpr (le_of_lt hlt))
      · rw [div_le_one (sub_pos.mpr hlt)]
        exact sub_le_sub_right (mem_le_foldl_max hpmem r.2) _
  · intro hall q hq
    have hdeg := (vrange_eq_iff r rs).mpr hall
    rw [normalize_dimension_cons, if_pos hdeg] at hq
    obtain ⟨p, hp, rfl⟩ := List.mem_map.mp hq
    rfl
  · intro hall
    have hdeg : ¬ ((r :: rs).map Prod.snd).foldl max r.2 =
        ((r :: rs).map Prod.snd).foldl min r.2 :=
      fun h => hall ((vrange_eq_iff r rs).mp h)
    refine ⟨by rw [normalize_dimension_cons, if_neg hdeg], ?_, ?_⟩
    · intro p hp hpmin
      rw [normalize_dimension_cons, if_neg hdeg]
      refine List.mem_map.mpr ⟨p, hp, ?_⟩
      rw [hpmin, sub_self, zero_div]
    · intro p hp hpmax
      rw [normalize_dimension_cons, if_neg hdeg]
      refine List.mem_map.mpr ⟨p, hp, ?_⟩
      rw [hpmax, div_self (sub_ne_zero.mpr hdeg)]
  · norm_num [normalize_dimension]

/-- Witness for C2 at the concrete table of scenario A. -/
theorem C2_witness :
    normalize_dimension [("ON", (10 : ℚ)), ("QC", 20), ("AB", 30)] =
      [("ON", 0), ("QC", 1 / 2), ("AB", 1)] ∧
    ("AB", (1 : ℚ)) ∈ normalize_dimension [("ON", (10 : ℚ)), ("QC", 20), ("AB", 30)] ∧
    ∀ q ∈ normalize_dimension [("ON", (10 : ℚ)), ("QC", 20), ("AB", 30)],
      0 ≤ q.2 ∧ q.2 ≤ 1 := by
  have h := C2_normalize_dimension_minmax ("ON", (10 : ℚ)) [("QC", 20), ("AB", 30)]
  have hne : ¬ (∀ p ∈ [("ON", (10 : ℚ)), ("QC", 20), ("AB", 30)],
      p.2 = ("ON", (10 : ℚ)).2) := by
    intro hall
    have := hall ("QC", 20) (by simp)
    norm_num at this
  refine ⟨h.2.2.2, ?_, h.1⟩
  refine (h.2.2.1 hne).2.2 ("AB", 30) (by simp) ?_
  norm_num [List.foldl, max_def]

/-- The `rows` dataframe of `compute_job_risk`: one `JobScore` per row of
`job_features_raw`, in read order. -/
def batchScores (jf : List JobRow) (rb : List RubricRow) : List JobScore :=
  jf.map (scoreJob (rubricMap rb))

/-- `lo = job_df["job_risk"].min()` for a non-empty batch. -/
def batchLo (j : JobRow) (js : List JobRow) (rb : List RubricRow) : ℚ :=
  ((batchScores (j :: js) rb).map JobScore.job_risk).foldl min
    (scoreJob (rubricMap rb) j).job_risk

/-- `hi = job_df["job_risk"].max()` for a non-empty batch. -/
def batchHi (j : JobRow) (js : List JobRow) (rb : List RubricRow) : ℚ :=
  ((batchScores (j :: js) rb).map JobScore.job_risk).foldl max
    (scoreJob (rubricMap rb) j).job_risk

theorem compute_job_risk_cons (j : JobRow) (js : List JobRow)
    (b : RubricRow) (bs : List RubricRow) :
    compute_job_risk (j :: js) (b :: bs) =
      ((batchScores (j :: js) (b :: bs)).map (fun s => (s.job_id, s.pcs_share)),
       (batchScores (j :: js) (b :: bs)).map fun s =>
         (s.job_id, globalNorm (batchLo j js (b :: bs)) (batchHi j js (b :: bs)) s.job_risk)) :=
  rfl

/-- C3: after the second, global min–max normalization in `compute_job_risk`,
a batch whose raw risks are not all identical has some persisted risk exactly
`0`, some persisted risk exactly `1`, and all persisted risks in `[0,1]`
(so the minimum is `0` and the maximum is `1`); a batch whose raw risks are
all identical has every persisted risk exactly `1/2`. -/
theorem C3_global_job_risk_bounds (j : JobRow) (js : List JobRow)
    (b : RubricRow) (bs : List RubricRow) :
    (¬ (∀ x ∈ (batchScores (j :: js) (b :: bs)).map JobScore.job_risk,
          ∀ y ∈ (batchScores (j :: js) (b :: bs)).map JobScore.job_risk, x = y) →
      (∃ q ∈ (compute_job_risk (j :: js) (b :: bs)).2, q.2 = 0) ∧
      (∃ q ∈ (compute_job_risk (j :: js) (b :: bs)).2, q.2 = 1) ∧
      ∀ q ∈ (compute_job_risk (j :: js) (b :: bs)).2, 0 ≤ q.2 ∧ q.2 ≤ 1) ∧
    ((∀ x ∈ (batchScores (j :: js) (b :: bs)).map JobScore.job_risk,
          ∀ y ∈ (batchScores (j :: js) (b :: bs)).map JobScore.job_risk, x = y) →
      ∀ q ∈ (compute_job_risk (j :: js) (b :: bs)).2, q.2 = 1 / 2) := by
  have hhead : (scoreJob (rubricMap (b :: bs)) j).job_risk ∈
      (batchScores (j :: js) (b :: bs)).map JobScore.job_risk :=
    List.mem_map_of_mem _ (List.mem_map_of_mem _ (List.mem_cons_self j js))
  have hlo_mem : batchLo j js (b :: bs) ∈
      (batchScores (j :: js) (b :: bs)).map JobScore.job_risk :=
    foldl_min_mem_of_mem hhead
  have hhi_mem : batchHi j js (b :: bs) ∈
      (batchScores (j :: js) (b :: bs)).map JobScore.job_risk :=
    foldl_max_mem_of_mem hhead
  have hlo_le : ∀ x ∈ (batchScores (j :: js) (b :: bs)).map JobScore.job_risk,
      batchLo j js (b :: bs) ≤ x := fun x hx => foldl_min_le_mem hx _
  have hle_hi : ∀ x ∈ (batchScores (j :: js) (b :: bs)).map JobScore.job_risk,
      x ≤ batchHi j js (b :: bs) := fun x hx => mem_le_foldl_max hx _
  have hout : (compute_job_risk (j :: js) (b :: bs)).2 =
      (batchScores (j :: js) (b :: bs)).map fun s =>
        (s.job_id, globalNorm (batchLo j js (b :: bs)) (batchHi j js (b :: bs)) s.job_risk) :=
    rfl
  constructor
  · intro hne
    have hnedeg : batchHi j js (b :: bs) ≠ batchLo j js (b :: bs) := by
      intro h
      apply hne
      intro x hx y hy
      have hx1 := le_antisymm (h ▸ hle_hi x hx) (hlo_le x hx)
      have hy1 := le_antisymm (h ▸ hle_hi y hy) (hlo_le y hy)
      rw [hx1, hy1]
    have hlt : batchLo j js (b :: bs) < batchHi j js (b :: bs) :=
      lt_of_le_of_ne (hlo_le _ hhi_mem) (Ne.symm hnedeg)
    refine ⟨?_, ?_, ?_⟩
    · obtain ⟨s, hsS, hsr⟩ := List.mem_map.mp hlo_mem
      refine ⟨(s.job_id, globalNorm (batchLo j js (b :: bs)) (batchHi j js (b :: bs)) s.job_risk),
        by rw [hout]; exact List.mem_map_of_mem _ hsS, ?_⟩
      show globalNorm _ _ s.job_risk = 0
      rw [hsr, globalNorm, if_neg hnedeg, sub_self, zero_div]
    · obtain ⟨s, hsS, hsr⟩ := List.mem_map.mp hhi_mem
      refine ⟨(s.job_id, globalNorm (batchLo j js (b :: bs)) (batchHi j js (b :: bs)) s.job_risk),
        by rw [hout]; exact List.mem_map_of_mem _ hsS, ?_⟩
      show globalNorm _ _ s.job_risk = 1
      rw [hsr, globalNorm, if_neg hnedeg, div_self (sub_ne_zero.mpr hnedeg)]
    · intro q hq
      rw [hout] at hq
      obtain ⟨s, hsS, rfl⟩ := List.mem_map.mp hq
      have hsr : s.job_risk ∈ (batchScores (j :: js) (b :: bs)).map JobScore.job_risk :=
        List.mem_map_of_mem _ hsS
      show 0 ≤ globalNorm _ _ s.job_risk ∧ globalNorm _ _ s.job_risk ≤ 1
      rw [globalNorm, if_neg hnedeg]
      constructor
      · exact div_nonneg (sub_nonneg.mpr (hlo_le _ hsr)) (sub_nonneg.mpr (le_of_lt hlt))
      · rw [div_le_one (sub_pos.mpr hlt)]
        exact sub_le_sub_right (hle_hi _ hsr) _
  · intro hall q hq
    rw [hout] at hq
    obtain ⟨s, hsS, rfl⟩ := List.mem_map.mp hq
    have hdeg : batchHi j js (b :: bs) = batchLo j js (b :: bs) :=
      hall _ hhi_mem _ hlo_mem
    show globalNorm _ _ s.job_risk = 1 / 2
    rw [globalNorm, if_pos hdeg]

/-- Witness for C3: a two-job batch with distinct raw risks has a persisted
risk exactly 0 and a persisted risk exactly 1. -/
theorem C3_witness :
    (∃ q ∈ (compute_job_risk [⟨"A", some [("X", some 5)]⟩, ⟨"B", some [("X", some 0)]⟩]
        [⟨"X", some 5, some 0⟩]).2, q.2 = 0) ∧
    (∃ q ∈ (compute_job_risk [⟨"A", some [("X", some 5)]⟩, ⟨"B", some [("X", some 0)]⟩]
        [⟨"X", some 5, some 0⟩]).2, q.2 = 1) := by
  have hk : norm_key "X" = "x" := by decide
  have hc : category_for "X" = Category.OTHER := by decide
  have hr : (batchScores [⟨"A", some [("X", some 5)]⟩, ⟨"B", some [("X", some 0)]⟩]
      [⟨"X", some 5, some 0⟩]).map JobScore.job_risk = [1000000000 / 1000000001, 0] := by
    norm_num [batchScores, scoreJob, featStep, rubricMap, eps, clamp01, job_risk_raw,
      inPcsSet, hk, hc, List.find?]
  have hne : ¬ (∀ x ∈ (batchScores [⟨"A", some [("X", some 5)]⟩, ⟨"B", some [("X", some 0)]⟩]
      [⟨"X", some 5, some 0⟩]).map JobScore.job_risk,
      ∀ y ∈ (batchScores [⟨"A", some [("X", some 5)]⟩, ⟨"B", some [("X", some 0)]⟩]
      [⟨"X", some 5, some 0⟩]).map JobScore.job_risk, x = y) := by
    rw [hr]
    intro hall
    have h01 := hall (1000000000 / 1000000001) (by simp) 0 (by simp)
    norm_num at h01
  have h := (C3_global_job_risk_bounds ⟨"A", some [("X", some 5)]⟩ [⟨"B", some [("X", some 0)]⟩]
    ⟨"X", some 5, some 0⟩ []).1 hne
  exact ⟨h.1, h.2.1⟩

/-- `0 ≤ clamp01 x`. -/
theorem clamp01_nonneg (x : ℚ) : 0 ≤ clamp01 x := le_max_left 0 _

/-- `clamp01 x ≤ 1`. -/
theorem clamp01_le_one (x : ℚ) : clamp01 x ≤ 1 :=
  max_le (by norm_num) (min_le_left 1 x)

/-- Both scaled indices produced by the rubric lookup are non-negative. -/
theorem rubricMap_getD_nonneg (rb : List RubricRow) (k : String) :
    0 ≤ ((rubricMap rb k).getD (0, 0)).1 ∧ 0 ≤ ((rubricMap rb k).getD (0, 0)).2 := by
  rcases hfind : (rb.reverse.find? fun row => norm_key row.name == k) with _ | row
  · simp [rubricMap, hfind]
  · simp [rubricMap, hfind]
    exact ⟨clamp01_nonneg _, clamp01_nonneg _⟩

/-- One feature-loop step keeps all four accumulators non-negative. -/
theorem featStep_nonneg (rb : List RubricRow) (acc : FeatAcc) (f : String × Option ℚ)
    (h : 0 ≤ acc.sub_raw ∧ 0 ≤ acc.cmp_raw ∧ 0 ≤ acc.pcs_mass ∧ 0 ≤ acc.pcs_den) :
    0 ≤ (featStep (rubricMap rb) acc f).sub_raw ∧
    0 ≤ (featStep (rubricMap rb) acc f).cmp_raw ∧
    0 ≤ (featStep (rubricMap rb) acc f).pcs_mass ∧
    0 ≤ (featStep (rubricMap rb) acc f).pcs_den := by
  obtain ⟨h1, h2, h3, h4⟩ := h
  rcases hv : f.2 with _ | v
  · simp [featStep, hv]
    exact ⟨h1, h2, h3, h4⟩
  · have hval : (0 : ℚ) ≤ max 0 (min 5 v) / 5 :=
      div_nonneg (le_max_left 0 _) (by norm_num)
    have hidx := rubricMap_getD_nonneg rb (norm_key f.1)
    simp only [featStep, hv]
    refine ⟨add_nonneg h1 (mul_nonneg hval hidx.1),
            add_nonneg h2 (mul_nonneg hval hidx.2), ?_, ?_⟩
    · split
      · exact add_nonneg h3 hval
      · exact h3
    · split
      · exact add_nonneg h4 hval
      · exact h4

/-- The whole feature fold keeps all four accumulators non-negative. -/
theorem foldl_featStep_nonneg (rb : List RubricRow) (feats : List (String × Option ℚ))
    (acc : FeatAcc)
    (h : 0 ≤ acc.sub_raw ∧ 0 ≤ acc.cmp_raw ∧ 0 ≤ acc.pcs_mass ∧ 0 ≤ acc.pcs_den) :
    0 ≤ (feats.foldl (featStep (rubricMap rb)) acc).sub_raw ∧
    0 ≤ (feats.foldl (featStep (rubricMap rb)) acc).cmp_raw ∧
    0 ≤ (feats.foldl (featStep (rubricMap rb)) acc).pcs_mass ∧
    0 ≤ (feats.foldl (featStep (rubricMap rb)) acc).pcs_den := by
  induction feats generalizing acc with
  | nil => exact h
  | cons f t ih => exact ih _ (featStep_nonneg rb acc f h)

/-- The per-job accumulator of `compute_job_risk` (the state of `sub_raw`,
`cmp_raw`, `pcs_mass`, `pcs_den` after the feature loop). -/
def jobAcc (rb : List RubricRow) (r : JobRow) : FeatAcc :=
  (r.payload.getD []).foldl (featStep (rubricMap rb)) ⟨0, 0, 0, 0⟩

/-- C4: the base-risk denominator `sub_raw + cmp_raw + 1e-9` is strictly
positive for every job and every rubric (no NaN and no divide-by-zero in the
rational model), `base` is exactly that quotient, both sums zero give base
exactly `0`, and the single-feature job of scenario B ("Repairing" at level 5,
rubric sub=5 cmp=1) has base risk strictly between 0.8333 and 0.8334. -/
theorem C4_base_risk_safe (rb : List RubricRow) (r : JobRow) :
    0 < (jobAcc rb r).sub_raw + (jobAcc rb r).cmp_raw + eps ∧
    (scoreJob (rubricMap rb) r).base =
      (jobAcc rb r).sub_raw / ((jobAcc rb r).sub_raw + (jobAcc rb r).cmp_raw + eps) ∧
    ((jobAcc rb r).sub_raw = 0 ∧ (jobAcc rb r).cmp_raw = 0 →
      (scoreJob (rubricMap rb) r).base = 0) ∧
    8333 / 10000 < (scoreJob (rubricMap [⟨"Repairing", some 5, some 1⟩])
        ⟨"J1", some [("Repairing", some 5)]⟩).base ∧
    (scoreJob (rubricMap [⟨"Repairing", some 5, some 1⟩])
        ⟨"J1", some [("Repairing", some 5)]⟩).base < 8334 / 10000 := by
  have hnn : 0 ≤ (jobAcc rb r).sub_raw ∧ 0 ≤ (jobAcc rb r).cmp_raw ∧
      0 ≤ (jobAcc rb r).pcs_mass ∧ 0 ≤ (jobAcc rb r).pcs_den :=
    foldl_featStep_nonneg rb (r.payload.getD []) ⟨0, 0, 0, 0⟩ (by norm_num)
  have hbase : (scoreJob (rubricMap [⟨"Repairing", some 5, some 1⟩])
      ⟨"J1", some [("Repairing", some 5)]⟩).base = 5000000000 / 6000000005 := by
    have hk : norm_key "Repairing" = "repairing" := by decide
    have hc : category_for "Repairing" = Category.PHYSICAL := by decide
    norm_num [scoreJob, featStep, rubricMap, eps, clamp01, hk, hc, List.find?]
  refine ⟨?_, rfl, ?_, ?_, ?_⟩
  · have heps : (0 : ℚ) < eps := by norm_num [eps]
    have := add_nonneg hnn.1 hnn.2.1
    linarith
  · intro ⟨hs, hc⟩
    show (jobAcc rb r).sub_raw / ((jobAcc rb r).sub_raw + (jobAcc rb r).cmp_raw + eps) = 0
    rw [hs, hc, zero_div]
  · rw [hbase]; norm_num
  · rw [hbase]; norm_num

/-- Witness for C4 at a job with an empty payload and an empty rubric. -/
theorem C4_witness :
    (scoreJob (rubricMap []) ⟨"J", none⟩).base = 0 ∧
    0 < (jobAcc [] ⟨"J", none⟩).sub_raw + (jobAcc [] ⟨"J", none⟩).cmp_raw + eps := by
  exact ⟨(C4_base_risk_safe [] ⟨"J", none⟩).2.2.1 ⟨rfl, rfl⟩,
    (C4_base_risk_safe [] ⟨"J", none⟩).1⟩

/-- The `job_id` column of a score row is the job's id. -/
theorem scoreJob_job_id (rubric : String → Option (ℚ × ℚ)) (r : JobRow) :
    (scoreJob rubric r).job_id = r.job_id := rfl

/-- On a non-empty batch with a non-empty rubric, both output tables carry
exactly the input's `job_id` column, in order. -/
theorem compute_job_risk_ids (j : JobRow) (js : List JobRow)
    (b : RubricRow) (bs : List RubricRow) :
    (compute_job_risk (j :: js) (b :: bs)).1.map Prod.fst =
      (j :: js).map JobRow.job_id ∧
    (compute_job_risk (j :: js) (b :: bs)).2.map Prod.fst =
      (j :: js).map JobRow.job_id := by
  constructor <;>
    · rw [compute_job_risk_cons]
      simp [batchScores, List.map_map, Function.comp, scoreJob_job_id]

/-- C5: `category_for` always returns one of the five labels, its result is
decided by the first matching rule in the fixed order ROUTINE, PHYSICAL,
CREATIVE, SOCIAL with default OTHER, and a feature classified OTHER leaves
both `pcs_mass` and `pcs_den` unchanged in the feature loop. -/
theorem C5_category_exclusive (s : String) (rubric : String → Option (ℚ × ℚ))
    (acc : FeatAcc) (f : String × Option ℚ) :
    (category_for s = Category.ROUTINE ∨ category_for s = Category.PHYSICAL ∨
     category_for s = Category.CREATIVE ∨ category_for s = Category.SOCIAL ∨
     category_for s = Category.OTHER) ∧
    (patternMatches routinePhrases s = true → category_for s = Category.ROUTINE) ∧
    (patternMatches routinePhrases s = false → patternMatches physicalPhrases s = true →
      category_for s = Category.PHYSICAL) ∧
    (patternMatches routinePhrases s = false → patternMatches physicalPhrases s = false →
      patternMatches creativePhrases s = true → category_for s = Category.CREATIVE) ∧
    (patternMatches routinePhrases s = false → patternMatches physicalPhrases s = false →
      patternMatches creativePhrases s = false → patternMatches socialPhrases s = true →
      category_for s = Category.SOCIAL) ∧
    (patternMatches routinePhrases s = false → patternMatches physicalPhrases s = false →
      patternMatches creativePhrases s = false → patternMatches socialPhrases s = false →
      category_for s = Category.OTHER) ∧
    (category_for f.1 = Category.OTHER →
      (featStep rubric acc f).pcs_mass = acc.pcs_mass ∧
      (featStep rubric acc f).pcs_den = acc.pcs_den) := by
  refine ⟨?_, ?_, ?_, ?_, ?_, ?_, ?_⟩
  · cases h : category_for s <;> simp [h]
  · intro h1
    simp [category_for, CATEGORY_MAP, List.find?, h1]
  · intro h1 h2
    simp [category_for, CATEGORY_MAP, List.find?, h1, h2]
  · intro h1 h2 h3
    simp [category_for, CATEGORY_MAP, List.find?, h1, h2, h3]
  · intro h1 h2 h3 h4
    simp [category_for, CATEGORY_MAP, List.find?, h1, h2, h3, h4]
  · intro h1 h2 h3 h4
    simp [category_for, CATEGORY_MAP, List.find?, h1, h2, h3, h4]
  · intro h
    rcases hv : f.2 with _ | v
    · simp [featStep, hv]
    · simp [featStep, hv, h, inPcsSet]

/-- Witness for C5: "Monitoring" classifies ROUTINE by the first rule, and an
OTHER-classified feature leaves the PCS accumulators untouched. -/
theorem C5_witness :
    category_for "Monitoring" = Category.ROUTINE ∧
    (featStep (fun _ => none) ⟨1, 1, 1, 1⟩ ("qqq", some 3)).pcs_mass = 1 ∧
    (featStep (fun _ => none) ⟨1, 1, 1, 1⟩ ("qqq", some 3)).pcs_den = 1 := by
  have h := C5_category_exclusive "Monitoring" (fun _ => none) ⟨1, 1, 1, 1⟩ ("qqq", some 3)
  have hother := h.2.2.2.2.2.2 (by decide)
  exact ⟨h.2.1 (by decide), hother.1, hother.2⟩

/-- C6: with `base_risk` held fixed and non-negative, the clamped raw job
risk `clamp01(base * (1 - pcs_share))` is non-increasing in `pcs_share` on
`[0,1]`, and at `pcs_share = 1` it is `0` for every base. -/
theorem C6_pcs_penalty_monotone (base p1 p2 : ℚ) (hb : 0 ≤ base) (h1 : 0 ≤ p1)
    (h12 : p1 ≤ p2) (h2 : p2 ≤ 1) :
    job_risk_raw base p2 ≤ job_risk_raw base p1 ∧ job_risk_raw base 1 = 0 := by
  constructor
  · have hm : base * (1 - p2) ≤ base * (1 - p1) :=
      mul_le_mul_of_nonneg_left (by linarith) hb
    exact max_le_max (le_refl 0) (min_le_min (le_refl 1) hm)
  · simp [job_risk_raw, clamp01]

/-- Witness for C6 at `base = 1/2`, `pcs_share` from `0` to `1`. -/
theorem C6_witness :
    job_risk_raw (1 / 2) 1 ≤ job_risk_raw (1 / 2) 0 ∧ job_risk_raw (1 / 2) 1 = 0 :=
  C6_pcs_penalty_monotone (1 / 2) 0 1 (by norm_num) (by norm_num) (by norm_num)
    (by norm_num)

/-- C7: for `pcs_share ∈ [0,1]` and non-negative base weights with
`w_p + w_e ≤ 1`, the three weights returned by `tapered_weights` sum exactly
to `1`, and at `pcs_share = 1` the result is province `0`, ethnicity `0`,
job `1`. -/
theorem C7_tapered_weights_sum_one (wp we pcs : ℚ) (hp : 0 ≤ wp) (he : 0 ≤ we)
    (hsum : wp + we ≤ 1) (hp0 : 0 ≤ pcs) (hp1 : pcs ≤ 1) :
    (tapered_weights wp we pcs).1 + (tapered_weights wp we pcs).2.1 +
      (tapered_weights wp we pcs).2.2 = 1 ∧
    tapered_weights wp we 1 = (0, 0, 1) := by
  constructor
  · simp only [tapered_weights]
    have hs : wp * (1 - max 0 (min 1 pcs)) + we * (1 - max 0 (min 1 pcs)) +
        (1 - (wp * (1 - max 0 (min 1 pcs)) + we * (1 - max 0 (min 1 pcs)))) = 1 := by
      ring
    rw [hs]
    norm_num
  · simp [tapered_weights]

/-- Witness for C7 at scenario D's base weights and `pcs_share = 2/5`. -/
theorem C7_witness :
    (tapered_weights (1 / 10) (3 / 20) (2 / 5)).1 +
      (tapered_weights (1 / 10) (3 / 20) (2 / 5)).2.1 +
      (tapered_weights (1 / 10) (3 / 20) (2 / 5)).2.2 = 1 ∧
    tapered_weights (1 / 10) (3 / 20) 1 = (0, 0, 1) :=
  C7_tapered_weights_sum_one (1 / 10) (3 / 20) (2 / 5) (by norm_num) (by norm_num)
    (by norm_num) (by norm_num) (by norm_num)

/-- C8: an empty raw exposure source leaves the normalized table empty, and
an empty job-feature source or an empty rubric source yields empty
`job_profile` and `job_risk` — whatever the prior derived contents were. -/
theorem C8_empty_source_clears (priorDim : List (String × ℚ)) (priorJobs : JobTables)
    (jf : List JobRow) (rb : List RubricRow) :
    normalize_dimension_update priorDim [] = [] ∧
    compute_job_risk_update priorJobs [] rb = ⟨[], []⟩ ∧
    compute_job_risk_update priorJobs jf [] = ⟨[], []⟩ := by
  refine ⟨rfl, rfl, ?_⟩
  cases jf <;> rfl

/-- C9: the recompute pipeline is a pure function of the raw tables (the
prior derived state never influences the result), hence running it twice on
unchanged raw tables yields identical derived tables. -/
theorem C9_recompute_pure_idempotent (prior prior' : DerivedTables) (raw : RawTables) :
    recompute (recompute prior raw) raw = recompute prior raw ∧
    recompute prior' raw = recompute prior raw :=
  ⟨rfl, rfl⟩

/-- C10: on a run that writes output (non-empty feature and rubric sources),
the `job_id` column of `job_profile` and of `job_risk` both equal the
`job_id` column of `job_features_raw`; when the input ids are distinct, each
id appears exactly once in each output table. -/
theorem C10_profile_risk_same_jobs (jf : List JobRow) (rb : List RubricRow)
    (hjf : jf ≠ []) (hrb : rb ≠ []) :
    (compute_job_risk jf rb).1.map Prod.fst = jf.map JobRow.job_id ∧
    (compute_job_risk jf rb).2.map Prod.fst = jf.map JobRow.job_id ∧
    ((jf.map JobRow.job_id).Nodup →
      ∀ jid ∈ jf.map JobRow.job_id,
        ((compute_job_risk jf rb).1.map Prod.fst).count jid = 1 ∧
        ((compute_job_risk jf rb).2.map Prod.fst).count jid = 1) := by
  match jf, rb with
  | [], _ => exact absurd rfl hjf
  | _ :: _, [] => exact absurd rfl hrb
  | j :: js, b :: bs =>
    obtain ⟨h1, h2⟩ := compute_job_risk_ids j js b bs
    refine ⟨h1, h2, ?_⟩
    intro hnodup jid hjid
    rw [h1, h2]
    exact ⟨List.count_eq_one_of_mem hnodup hjid, List.count_eq_one_of_mem hnodup hjid⟩

/-- Witness for C10 on a concrete two-job batch. -/
theorem C10_witness :
    (compute_job_risk [⟨"A", none⟩, ⟨"B", none⟩] [⟨"X", some 1, some 1⟩]).1.map Prod.fst =
      ["A", "B"] ∧
    ((compute_job_risk [⟨"A", none⟩, ⟨"B", none⟩] [⟨"X", some 1, some 1⟩]).2.map
      Prod.fst).count "A" = 1 := by
  have h := C10_profile_risk_same_jobs [⟨"A", none⟩, ⟨"B", none⟩] [⟨"X", some 1, some 1⟩]
    (by simp) (by simp)
  have hc := (h.2.2 (by decide) "A" (by decide)).2
  exact ⟨h.1, hc⟩

/-- C1 counterexample: a batch consisting of one job whose feature payload is
unparsable, with a non-empty rubric, produces a `job_profile` row and a
`job_risk` row for that job — it is not excluded from the outputs. -/
theorem C1_counterexample :
    compute_job_risk [⟨"J1", none⟩] [⟨"X", some 5, some 1⟩] =
      ([("J1", 0)], [("J1", 1 / 2)]) ∧
    ("J1", (0 : ℚ)) ∈ (compute_job_risk [⟨"J1", none⟩] [⟨"X", some 5, some 1⟩]).1 ∧
    ("J1", (1 : ℚ) / 2) ∈ (compute_job_risk [⟨"J1", none⟩] [⟨"X", some 5, some 1⟩]).2 := by
  have h : compute_job_risk [⟨"J1", none⟩] [⟨"X", some 5, some 1⟩] =
      ([("J1", 0)], [("J1", 1 / 2)]) := by
    norm_num [compute_job_risk, scoreJob, featStep, rubricMap, eps, clamp01,
      globalNorm, job_risk_raw]
  refine ⟨h, ?_, ?_⟩ <;> rw [h] <;> simp

/-- C1 amended: a job whose feature payload is empty or unparsable is scored
on an empty feature set — pcs_share `0`, raw risk `0` — and still contributes
a row to both `job_profile` and `job_risk` whenever the batch writes output;
the batch is not aborted. -/
theorem C1_empty_payload_still_scored (rubric : String → Option (ℚ × ℚ))
    (r : JobRow) (jf : List JobRow) (rb : List RubricRow)
    (hpay : r.payload.getD [] = []) (hr : r ∈ jf) (hrb : rb ≠ []) :
    scoreJob rubric r = ⟨r.job_id, 0, 0, 0⟩ ∧
    r.job_id ∈ (compute_job_risk jf rb).1.map Prod.fst ∧
    r.job_id ∈ (compute_job_risk jf rb).2.map Prod.fst := by
  have hsc : scoreJob rubric r = ⟨r.job_id, 0, 0, 0⟩ := by
    norm_num [scoreJob, hpay, job_risk_raw, clamp01, eps]
  refine ⟨hsc, ?_⟩
  cases jf with
  | nil => cases hr
  | cons j js =>
    cases rb with
    | nil => exact absurd rfl hrb
    | cons b bs =>
      have hid := compute_job_risk_ids j js b bs
      rw [hid.1, hid.2]
      exact ⟨List.mem_map_of_mem _ hr, List.mem_map_of_mem _ hr⟩

/-- Witness for the amended C1 on the concrete one-job batch. -/
theorem C1_witness :
    scoreJob (rubricMap [⟨"X", some 5, some 1⟩]) ⟨"J1", none⟩ = ⟨"J1", 0, 0, 0⟩ ∧
    "J1" ∈ (compute_job_risk [⟨"J1", none⟩] [⟨"X", some 5, some 1⟩]).1.map Prod.fst := by
  have h := C1_empty_payload_still_scored (rubricMap [⟨"X", some 5, some 1⟩])
    ⟨"J1", none⟩ [⟨"J1", none⟩] [⟨"X", some 5, some 1⟩] rfl (by simp) (by simp)
  exact ⟨h.1, h.2.1⟩

end GenEQ
